/-
Verification of the graph-fusion / regulon-scoring core of regulon-pro
(src/app/main_backup_v2.py) against its natural-language specification.

The Python code is shallowly embedded: Python dicts that preserve
insertion order (node map, edge map, item map) are modelled as lists with
"find first matching key, update in place, else append" semantics; Python
floats are modelled as rationals (ℚ); optional values as Option;
transcendental float functions (math.log1p) and float rounding
(round(x, 6)) are taken as parameters, so every theorem quantifying over
them holds in particular for the actual float instantiation.
-/
import Mathlib

namespace RegulonPro

/-- Embeds the `Node` dataclass of src/app/main_backup_v2.py.
`sources` is the list of originating source-database tags. -/
structure Node where
  id : String
  label : String
  kind : String
  sources : List String
deriving DecidableEq, Repr

/-- Free-form evidence metadata (Python `Optional[Dict[str, Any]]`),
modelled as an optional key/value bag. -/
abbrev Meta := Option (List (String × String))

/-- Embeds the `Edge` dataclass of src/app/main_backup_v2.py.
`score` is `Optional[float]`, modelled as `Option ℚ`. -/
structure Edge where
  source : String
  target : String
  kind : String
  source_db : String
  score : Option ℚ := none
  support : Nat := 1
  meta : Meta := none
deriving DecidableEq, Repr

/-- Merge key of an edge: embeds `_edge_key` — the unordered pair is
canonicalized by lexicographic ordering, then kind and source database.
Python's `v < u` on strings is lexicographic; it coincides with Lean's
`String` order (`String.lt_iff_toList_lt`), written here on the character
lists so that the definition evaluates inside the kernel. -/
def edge_key (u v kind db : String) : String × String × String × String :=
  if v.toList < u.toList then (v, u, kind, db) else (u, v, kind, db)

/-- The update `_add_node` applies to an existing node: the source tag is
appended if new, and the kind is upgraded only from "unknown" to a
non-"unknown" kind. -/
def upd_node (n : Node) (kind source_db : String) : Node :=
  { n with
    sources := if source_db ∈ n.sources then n.sources else n.sources ++ [source_db],
    kind := if n.kind = "unknown" ∧ kind ≠ "unknown" then kind else n.kind }

/-- Embeds `_add_node`: the node map is a dict keyed by `node_id`
(insertion-ordered); an existing entry is updated in place via `upd_node`,
a fresh identifier is appended with the sighted label, kind and source. -/
def add_node (nodes : List Node) (node_id label kind source_db : String) : List Node :=
  match nodes with
  | [] => [{ id := node_id, label := label, kind := kind, sources := [source_db] }]
  | n :: rest =>
    if n.id = node_id then upd_node n kind source_db :: rest
    else n :: add_node rest node_id label kind source_db

/-- A sighting of a node in an evidence record: the arguments of one
`_add_node` call. -/
structure Sighting where
  node_id : String
  label : String
  kind : String
  source_db : String
deriving DecidableEq, Repr

/-- Fold a sequence of sightings into the node map, as the fusion loops do. -/
def add_nodes (nodes : List Node) (ss : List Sighting) : List Node :=
  ss.foldl (fun acc s => add_node acc s.node_id s.label s.kind s.source_db) nodes

/-- Python `nodes[node_id]` lookup on the embedded node map. -/
def find_node (nodes : List Node) (node_id : String) : Option Node :=
  nodes.find? (fun n => n.id = node_id)

/-- The update `_merge_edge` applies to an existing entry `old` when the
incoming record `e` hits its key: `support += 1`, and the score is replaced
only when the incoming score is present and strictly larger. -/
def upd_edge (old e : Edge) : Edge :=
  { old with
    support := old.support + 1,
    score := match e.score, old.score with
      | none, s => s
      | some s, none => some s
      | some s, some t => if s > t then some s else some t }

/-- Embeds `_merge_edge`: the edge map is a dict keyed by `_edge_key`
(insertion-ordered).  On a repeat key the entry is updated in place via
`upd_edge` (the stored metadata is left untouched); on a fresh key the
record is appended. -/
def merge_edge (edges : List ((String × String × String × String) × Edge)) (e : Edge) :
    List ((String × String × String × String) × Edge) :=
  let key := edge_key e.source e.target e.kind e.source_db
  match edges with
  | [] => [(key, e)]
  | (k, old) :: rest =>
    if k = key then (k, upd_edge old e) :: rest
    else (k, old) :: merge_edge rest e

/-- Fold a sequence of interaction records into the edge map. -/
def merge_edges (edges : List ((String × String × String × String) × Edge))
    (es : List Edge) : List ((String × String × String × String) × Edge) :=
  es.foldl merge_edge edges

/-- Python `key in edges` / `edges[key]` lookup on the embedded edge map. -/
def find_edge (edges : List ((String × String × String × String) × Edge))
    (key : String × String × String × String) : Option Edge :=
  (edges.find? (fun p => p.1 = key)).map (·.2)

/-- Maximum of a list of rationals, `none` on the empty list: the value the
spec calls "the maximum of the incoming non-missing scores". -/
def max_score : List ℚ → Option ℚ
  | [] => none
  | s :: rest =>
    match max_score rest with
    | none => some s
    | some t => some (max s t)

lemma max_score_cons_max (a b : ℚ) (l : List ℚ) :
    max_score (max a b :: l) = max_score (a :: b :: l) := by
  cases h : max_score l <;> simp [max_score, h, max_assoc]

lemma if_gt_some (s t : ℚ) : (if s > t then some s else some t) = some (max t s) := by
  rcases le_or_lt s t with h | h
  · rw [if_neg (not_lt.mpr h), max_eq_left h]
  · rw [if_pos h, max_eq_right h.le]

lemma find_edge_cons (k₀ : String × String × String × String) (o : Edge)
    (rest : List ((String × String × String × String) × Edge)) (key) :
    find_edge ((k₀, o) :: rest) key = if k₀ = key then some o else find_edge rest key := by
  by_cases h : k₀ = key <;> simp [find_edge, List.find?_cons, h]

lemma merge_edge_cons (k₀ : String × String × String × String) (o : Edge)
    (rest : List ((String × String × String × String) × Edge)) (e : Edge) :
    merge_edge ((k₀, o) :: rest) e =
      if k₀ = edge_key e.source e.target e.kind e.source_db then (k₀, upd_edge o e) :: rest
      else (k₀, o) :: merge_edge rest e := rfl

/-- Folding records that all hit the key of a single-entry edge map keeps a
single entry whose support counts every record, whose score is the maximum
of all non-missing scores seen, and whose metadata never changes. -/
lemma merge_edges_single :
    ∀ (rest : List Edge) (k : String × String × String × String) (e : Edge),
      (∀ r ∈ rest, edge_key r.source r.target r.kind r.source_db = k) →
      ∃ e', merge_edges [(k, e)] rest = [(k, e')]
        ∧ e'.support = e.support + rest.length
        ∧ e'.score = max_score (e.score.toList ++ rest.filterMap Edge.score)
        ∧ e'.meta = e.meta
  | [], _, e, _ => ⟨e, rfl, by simp, by cases h : e.score <;> simp [h, max_score], rfl⟩
  | r :: rest, k, e, hk => by
    have hkr : edge_key r.source r.target r.kind r.source_db = k :=
      hk r (List.mem_cons_self r rest)
    have hrest : ∀ x ∈ rest, edge_key x.source x.target x.kind x.source_db = k :=
      fun x hx => hk x (List.mem_cons_of_mem r hx)
    have hstep : merge_edges [(k, e)] (r :: rest) = merge_edges [(k, upd_edge e r)] rest := by
      simp [merge_edges, List.foldl_cons, merge_edge_cons, hkr]
    obtain ⟨e', heq, hsup, hsc, hm⟩ := merge_edges_single rest k (upd_edge e r) hrest
    refine ⟨e', hstep.trans heq, ?_, ?_, ?_⟩
    · simp only [upd_edge] at hsup
      simp only [List.length_cons]
      omega
    · rw [hsc]
      cases hr : r.score with
      | none => simp [upd_edge, hr, List.filterMap_cons]
      | some s =>
        cases he : e.score with
        | none => simp [upd_edge, hr, he, List.filterMap_cons]
        | some t =>
          have hus : (upd_edge e r).score = some (max t s) := by
            simp [upd_edge, hr, he, if_gt_some]
          rw [hus]
          simp only [Option.toList, List.filterMap_cons, hr, he,
            List.singleton_append, List.cons_append, List.nil_append]
          rw [max_score_cons_max]
    · rw [hm]; rfl

/-- On a merge into an existing entry, support never decreases and the
stored score never decreases (a present score is never replaced by a
smaller or missing one) — at any key of the map. -/
lemma merge_edge_mono :
    ∀ (edges : List ((String × String × String × String) × Edge)) (e : Edge)
      (key : String × String × String × String) (old : Edge),
      find_edge edges key = some old →
      ∃ new, find_edge (merge_edge edges e) key = some new ∧
        old.support ≤ new.support ∧
        (∀ x : ℚ, old.score = some x → ∃ y, new.score = some y ∧ x ≤ y) ∧
        new.meta = old.meta := by
  intro edges e key old h
  induction edges with
  | nil => simp [find_edge] at h
  | cons p rest ih =>
    obtain ⟨k₀, o⟩ := p
    rw [merge_edge_cons]
    by_cases hk : k₀ = edge_key e.source e.target e.kind e.source_db
    · rw [if_pos hk]
      by_cases hq : k₀ = key
      · rw [find_edge_cons, if_pos hq] at h
        have hoo : o = old := by injection h
        subst hoo
        refine ⟨upd_edge o e, by rw [find_edge_cons, if_pos hq], by simp [upd_edge], ?_, rfl⟩
        intro x hx
        cases he : e.score with
        | none => exact ⟨x, by simp [upd_edge, he, hx], le_refl x⟩
        | some s =>
          refine ⟨max x s, ?_, le_max_left x s⟩
          simp only [upd_edge, he, hx]
          rw [if_gt_some]
      · rw [find_edge_cons, if_neg hq] at h
        exact ⟨old, by rw [find_edge_cons, if_neg hq]; exact h, le_refl _,
          fun x hx => ⟨x, hx, le_refl x⟩, rfl⟩
    · rw [if_neg hk]
      by_cases hq : k₀ = key
      · rw [find_edge_cons, if_pos hq] at h
        have hoo : o = old := by injection h
        subst hoo
        exact ⟨o, by rw [find_edge_cons, if_pos hq], le_refl _,
          fun x hx => ⟨x, hx, le_refl x⟩, rfl⟩
      · rw [find_edge_cons, if_neg hq] at h
        obtain ⟨new, h1, h2, h3, h4⟩ := ih h
        exact ⟨new, by rw [find_edge_cons, if_neg hq]; exact h1, h2, h3, h4⟩

/-- C3: folding interaction records that share one merge key into the edge
map yields a single edge whose support equals the number of records merged
and whose score is the maximum of the non-missing incoming scores; and on
any merge, support and score never decrease. -/
theorem C3_merge_support_max_score (r : Edge) (rest : List Edge)
    (k : String × String × String × String)
    (hr : edge_key r.source r.target r.kind r.source_db = k)
    (hrest : ∀ x ∈ rest, edge_key x.source x.target x.kind x.source_db = k)
    (hsup : r.support = 1) :
    ((merge_edges [] (r :: rest)).length = 1 ∧
      ∃ e', find_edge (merge_edges [] (r :: rest)) k = some e' ∧
        e'.support = (r :: rest).length ∧
        e'.score = max_score ((r :: rest).filterMap Edge.score)) ∧
    ∀ (edges : List ((String × String × String × String) × Edge)) (e : Edge)
      (key : String × String × String × String) (old : Edge),
      find_edge edges key = some old →
      ∃ new, find_edge (merge_edge edges e) key = some new ∧
        old.support ≤ new.support ∧
        ∀ x : ℚ, old.score = some x → ∃ y, new.score = some y ∧ x ≤ y := by
  refine ⟨?_, fun edges e key old h => ?_⟩
  case refine_2 =>
    obtain ⟨new, h1, h2, h3, _⟩ := merge_edge_mono edges e key old h
    exact ⟨new, h1, h2, h3⟩
  have hstart : merge_edges [] (r :: rest) = merge_edges [(k, r)] rest := by
    simp [merge_edges, List.foldl_cons, merge_edge, hr]
  obtain ⟨e', heq, hsupp, hsc, _⟩ := merge_edges_single rest k r hrest
  rw [hstart, heq]
  refine ⟨rfl, e', by simp [find_edge], ?_, ?_⟩
  · rw [hsupp, hsup]
    simp only [List.length_cons]
    omega
  · rw [hsc]
    cases h : r.score <;> simp [h, List.filterMap_cons]

/-- Witness for C3: merging three records with scores [0.4, 0.9, 0.2] into
one edge key leaves stored score 0.9 and support 3 (the spec's example). -/
theorem C3_merge_support_max_score_witness :
    ∃ e', find_edge
        (merge_edges []
          [{ source := "TP53", target := "MDM2", kind := "ppi", source_db := "STRING",
             score := some (4/10) },
           { source := "TP53", target := "MDM2", kind := "ppi", source_db := "STRING",
             score := some (9/10) },
           { source := "TP53", target := "MDM2", kind := "ppi", source_db := "STRING",
             score := some (2/10) }])
        (edge_key "TP53" "MDM2" "ppi" "STRING") = some e' ∧
      e'.support = 3 ∧ e'.score = some (9/10) := by
  obtain ⟨⟨_, e', hfind, hsup, hsc⟩, _⟩ :=
    C3_merge_support_max_score
      { source := "TP53", target := "MDM2", kind := "ppi", source_db := "STRING",
        score := some (4/10) }
      [{ source := "TP53", target := "MDM2", kind := "ppi", source_db := "STRING",
         score := some (9/10) },
       { source := "TP53", target := "MDM2", kind := "ppi", source_db := "STRING",
         score := some (2/10) }]
      (edge_key "TP53" "MDM2" "ppi" "STRING") rfl
      (by intro x hx; fin_cases hx <;> rfl) rfl
  refine ⟨e', hfind, by rw [hsup]; rfl, ?_⟩
  rw [hsc]
  show max_score [(4:ℚ)/10, 9/10, 2/10] = some (9/10)
  simp only [max_score]
  rw [max_def, max_def]
  norm_num

/-- C4: the merge key canonicalizes the node pair, so records for (A,B) and
(B,A) with identical kind, source_db and score merge into exactly one edge,
while records differing in kind or source_db stay distinct entries. -/
theorem C4_edge_key_symmetry (A B : String) (kind db : String) (s : Option ℚ)
    (m₁ m₂ : Meta) :
    edge_key A B kind db = edge_key B A kind db ∧
    (merge_edges []
      [{ source := A, target := B, kind := kind, source_db := db, score := s, meta := m₁ },
       { source := B, target := A, kind := kind, source_db := db, score := s, meta := m₂ }]).length
      = 1 ∧
    ∀ k₁ d₁ k₂ d₂ : String, (k₁ ≠ k₂ ∨ d₁ ≠ d₂) →
      (merge_edges []
        [{ source := A, target := B, kind := k₁, source_db := d₁, score := s, meta := m₁ },
         { source := A, target := B, kind := k₂, source_db := d₂, score := s, meta := m₂ }]).length
        = 2 := by
  have hsymm : ∀ kk dd : String, edge_key A B kk dd = edge_key B A kk dd := by
    intro kk dd
    rcases lt_trichotomy A.toList B.toList with h | h | h
    · have h' : A.data < B.data := h
      simp [edge_key, h', asymm h']
    · have hAB : A = B := by
        cases A with
        | mk la =>
          cases B with
          | mk lb => simp only [String.toList] at h; rw [h]
      subst hAB; rfl
    · have h' : B.data < A.data := h
      simp [edge_key, h', asymm h']
  refine ⟨hsymm kind db, ?_, ?_⟩
  · simp [merge_edges, List.foldl_cons, merge_edge, ← hsymm kind db]
  · intro k₁ d₁ k₂ d₂ hne
    have hkeys : edge_key A B k₁ d₁ ≠ edge_key A B k₂ d₂ := by
      intro hcontra
      by_cases h : B.toList < A.toList
      · simp only [edge_key, if_pos h, Prod.mk.injEq] at hcontra
        exact hne.elim (fun hh => hh hcontra.2.2.1) (fun hh => hh hcontra.2.2.2)
      · simp only [edge_key, if_neg h, Prod.mk.injEq] at hcontra
        exact hne.elim (fun hh => hh hcontra.2.2.1) (fun hh => hh hcontra.2.2.2)
    simp only [merge_edges, List.foldl_cons, List.foldl_nil, merge_edge]
    rw [if_neg hkeys]
    rfl

/-- Witness for C4 at concrete inputs ("TP53","MDM2", kind "ppi", db
"STRING"); the distinctness part instantiated at kinds "ppi" vs
"rbp_target". -/
theorem C4_edge_key_symmetry_witness :
    edge_key "TP53" "MDM2" "ppi" "STRING" = edge_key "MDM2" "TP53" "ppi" "STRING" ∧
    (merge_edges []
      [{ source := "TP53", target := "MDM2", kind := "ppi", source_db := "STRING",
         score := some 1, meta := none },
       { source := "MDM2", target := "TP53", kind := "ppi", source_db := "STRING",
         score := some 1, meta := none }]).length = 1 ∧
    (merge_edges []
      [{ source := "TP53", target := "MDM2", kind := "ppi", source_db := "STRING",
         score := some 1, meta := none },
       { source := "TP53", target := "MDM2", kind := "rbp_target", source_db := "STRING",
         score := some 1, meta := none }]).length = 2 := by
  obtain ⟨h1, h2, h3⟩ :=
    C4_edge_key_symmetry "TP53" "MDM2" "ppi" "STRING" (some 1) none none
  exact ⟨h1, h2, h3 "ppi" "STRING" "rbp_target" "STRING" (Or.inl (by decide))⟩

lemma find_node_cons (n : Node) (rest : List Node) (id : String) :
    find_node (n :: rest) id = if n.id = id then some n else find_node rest id := by
  by_cases h : n.id = id <;> simp [find_node, List.find?_cons, h]

lemma add_node_cons (n : Node) (rest : List Node) (nid l k db : String) :
    add_node (n :: rest) nid l k db =
      if n.id = nid then upd_node n k db :: rest else n :: add_node rest nid l k db := rfl

lemma upd_node_id (n : Node) (k db : String) : (upd_node n k db).id = n.id := rfl

lemma upd_node_kind (n : Node) (k db : String) :
    (upd_node n k db).kind = if n.kind = "unknown" ∧ k ≠ "unknown" then k else n.kind := rfl

/-- A sighting of a different identifier leaves lookups unchanged. -/
lemma find_add_node_ne (nodes : List Node) (nid l k db id : String) (h : id ≠ nid) :
    find_node (add_node nodes nid l k db) id = find_node nodes id := by
  have h' : nid ≠ id := Ne.symm h
  induction nodes with
  | nil => simp [add_node, find_node, List.find?_cons, h']
  | cons n rest ih =>
    rw [add_node_cons]
    by_cases hn : n.id = nid
    · rw [if_pos hn, find_node_cons, find_node_cons, upd_node_id, hn,
        if_neg (fun hh => h hh.symm), if_neg (fun hh => h hh.symm)]
    · rw [if_neg hn, find_node_cons, find_node_cons]
      by_cases hi : n.id = id
      · rw [if_pos hi, if_pos hi]
      · rw [if_neg hi, if_neg hi, ih]

/-- A sighting of an identifier already present updates that entry in
place via `upd_node`. -/
lemma find_add_node_eq (nodes : List Node) (nid l k db : String) (n : Node)
    (h : find_node nodes nid = some n) :
    find_node (add_node nodes nid l k db) nid = some (upd_node n k db) := by
  induction nodes with
  | nil => simp [find_node] at h
  | cons m rest ih =>
    rw [find_node_cons] at h
    rw [add_node_cons]
    by_cases hm : m.id = nid
    · rw [if_pos hm] at h
      have hmn : m = n := by injection h
      subst hmn
      rw [if_pos hm, find_node_cons, upd_node_id, if_pos hm]
    · rw [if_neg hm] at h
      rw [if_neg hm, find_node_cons, if_neg hm]
      exact ih h

/-- Once a node's kind is concrete it survives any further sequence of
sightings unchanged. -/
lemma kind_stable_fold (ss : List Sighting) :
    ∀ (nodes : List Node) (id : String) (n : Node),
      find_node nodes id = some n → n.kind ≠ "unknown" →
      ∃ n', find_node (add_nodes nodes ss) id = some n' ∧ n'.kind = n.kind := by
  induction ss with
  | nil => exact fun nodes nid n h _ => ⟨n, h, rfl⟩
  | cons s rest ih =>
    intro nodes nid n h hc
    show ∃ n', find_node (add_nodes (add_node nodes s.node_id s.label s.kind s.source_db) rest) nid
      = some n' ∧ n'.kind = n.kind
    by_cases hid : nid = s.node_id
    · subst hid
      have h2 := find_add_node_eq nodes s.node_id s.label s.kind s.source_db n h
      have hk : (upd_node n s.kind s.source_db).kind = n.kind := by
        rw [upd_node_kind, if_neg (fun hh => hc hh.1)]
      obtain ⟨n', h3, h4⟩ := ih _ s.node_id _ h2 (by rw [hk]; exact hc)
      exact ⟨n', h3, by rw [h4, hk]⟩
    · have h2 := find_add_node_ne nodes s.node_id s.label s.kind s.source_db nid hid
      obtain ⟨n', h3, h4⟩ := ih _ nid n (by rw [h2]; exact h) hc
      exact ⟨n', h3, h4⟩

/-- C5: a node's kind only transitions from "unknown" to a concrete kind:
an unknown node sighted with a concrete kind takes that kind, and a node
whose kind is concrete keeps it across every further sighting. -/
theorem C5_kind_upgrade_only :
    (∀ (nodes : List Node) (id l k db : String) (n : Node),
      find_node nodes id = some n → n.kind = "unknown" → k ≠ "unknown" →
      ∃ n', find_node (add_node nodes id l k db) id = some n' ∧ n'.kind = k) ∧
    ∀ (nodes : List Node) (ss : List Sighting) (id : String) (n : Node),
      find_node nodes id = some n → n.kind ≠ "unknown" →
      ∃ n', find_node (add_nodes nodes ss) id = some n' ∧ n'.kind = n.kind := by
  constructor
  · intro nodes id l k db n h hu hk
    refine ⟨upd_node n k db, find_add_node_eq nodes id l k db n h, ?_⟩
    rw [upd_node_kind, if_pos ⟨hu, hk⟩]
  · exact fun nodes ss id n h hc => kind_stable_fold ss nodes id n h hc

/-- Witness for C5: a node first seen with kind "unknown", then "protein",
then "unknown" again, ends with kind "protein" (the spec's example). -/
theorem C5_kind_upgrade_only_witness :
    ∃ n', find_node
        (add_nodes []
          [{ node_id := "X", label := "X", kind := "unknown", source_db := "db1" },
           { node_id := "X", label := "X", kind := "protein", source_db := "db2" },
           { node_id := "X", label := "X", kind := "unknown", source_db := "db3" }]) "X"
      = some n' ∧ n'.kind = "protein" := by
  obtain ⟨n', h1, h2⟩ :=
    C5_kind_upgrade_only.2
      [{ id := "X", label := "X", kind := "protein", sources := ["db1", "db2"] }]
      [{ node_id := "X", label := "X", kind := "unknown", source_db := "db3" }]
      "X" { id := "X", label := "X", kind := "protein", sources := ["db1", "db2"] }
      rfl (by decide)
  exact ⟨n', h1, h2⟩

/-- C6 counterexample: the node map is NOT keyed case-insensitively — the
two sightings "TP53" and "tp53" produce two distinct nodes, where the
claim requires a single node. -/
theorem C6_counterexample :
    (add_nodes []
      [{ node_id := "TP53", label := "TP53", kind := "protein", source_db := "STRING" },
       { node_id := "tp53", label := "tp53", kind := "protein", source_db := "ENCORI" }]).length
      = 2 ∧ ("TP53" : String) ≠ "tp53" := by
  constructor
  · show (add_node (add_node [] "TP53" "TP53" "protein" "STRING")
      "tp53" "tp53" "protein" "ENCORI").length = 2
    rw [show add_node [] "TP53" "TP53" "protein" "STRING"
        = [{ id := "TP53", label := "TP53", kind := "protein", sources := ["STRING"] }] from rfl,
      add_node_cons, if_neg (by decide)]
    rfl
  · decide

/-- C6 (amended): the node map is keyed by the exact identifier string —
two sightings of the same identifier merge into one node, two sightings
of distinct identifiers (even ones differing only in case) yield two. -/
theorem C6_exact_identifier_key (s₁ s₂ : Sighting) :
    (s₁.node_id = s₂.node_id → (add_nodes [] [s₁, s₂]).length = 1) ∧
    (s₁.node_id ≠ s₂.node_id → (add_nodes [] [s₁, s₂]).length = 2) := by
  constructor <;> intro h <;>
    show (add_node (add_node [] s₁.node_id s₁.label s₁.kind s₁.source_db)
      s₂.node_id s₂.label s₂.kind s₂.source_db).length = _
  · rw [show add_node [] s₁.node_id s₁.label s₁.kind s₁.source_db
        = [{ id := s₁.node_id, label := s₁.label, kind := s₁.kind,
             sources := [s₁.source_db] }] from rfl,
      add_node_cons, if_pos h]
    rfl
  · rw [show add_node [] s₁.node_id s₁.label s₁.kind s₁.source_db
        = [{ id := s₁.node_id, label := s₁.label, kind := s₁.kind,
             sources := [s₁.source_db] }] from rfl,
      add_node_cons, if_neg h]
    rfl

/-- Witness for C6 (amended), at the identifiers of the counterexample. -/
theorem C6_exact_identifier_key_witness :
    (add_nodes []
      [{ node_id := "TP53", label := "TP53", kind := "protein", source_db := "STRING" },
       { node_id := "TP53", label := "TP53", kind := "protein", source_db := "ENCORI" }]).length
      = 1 ∧
    (add_nodes []
      [{ node_id := "TP53", label := "TP53", kind := "protein", source_db := "STRING" },
       { node_id := "tp53", label := "tp53", kind := "protein", source_db := "ENCORI" }]).length
      = 2 :=
  ⟨(C6_exact_identifier_key
      { node_id := "TP53", label := "TP53", kind := "protein", source_db := "STRING" }
      { node_id := "TP53", label := "TP53", kind := "protein", source_db := "ENCORI" }).1 rfl,
   (C6_exact_identifier_key
      { node_id := "TP53", label := "TP53", kind := "protein", source_db := "STRING" }
      { node_id := "tp53", label := "tp53", kind := "protein", source_db := "ENCORI" }).2
      (by decide)⟩

/-- C9 counterexample: merging a second record into an existing edge does
NOT replace the stored metadata — after merging two records with
metadata "first" and "second" under one key, the stored metadata is still
"first", where the claim requires the last-merged record's "second". -/
theorem C9_counterexample :
    (find_edge
        (merge_edges []
          [{ source := "A", target := "B", kind := "ppi", source_db := "DB",
             score := none, support := 1, meta := some [("evidence", "first")] },
           { source := "A", target := "B", kind := "ppi", source_db := "DB",
             score := none, support := 1, meta := some [("evidence", "second")] }])
        (edge_key "A" "B" "ppi" "DB")).map Edge.meta
      = some (some [("evidence", "first")]) ∧
    (some [("evidence", "first")] : Meta) ≠ some [("evidence", "second")] := by
  refine ⟨?_, by decide⟩
  show (find_edge
    (merge_edge
      [(edge_key "A" "B" "ppi" "DB",
        { source := "A", target := "B", kind := "ppi", source_db := "DB",
          score := none, support := 1, meta := some [("evidence", "first")] })]
      { source := "A", target := "B", kind := "ppi", source_db := "DB",
        score := none, support := 1, meta := some [("evidence", "second")] })
    (edge_key "A" "B" "ppi" "DB")).map Edge.meta = some (some [("evidence", "first")])
  rw [merge_edge_cons, if_pos rfl, find_edge_cons, if_pos rfl]
  rfl

/-- C9 (amended): an edge's free-form evidence metadata equals the metadata
of the FIRST record merged under its key; subsequent merges never touch the
stored metadata (at any key of the map). -/
theorem C9_meta_from_first_record (r : Edge) (rest : List Edge)
    (k : String × String × String × String)
    (hr : edge_key r.source r.target r.kind r.source_db = k)
    (hrest : ∀ x ∈ rest, edge_key x.source x.target x.kind x.source_db = k) :
    (∃ e', find_edge (merge_edges [] (r :: rest)) k = some e' ∧ e'.meta = r.meta) ∧
    ∀ (edges : List ((String × String × String × String) × Edge)) (e : Edge)
      (key : String × String × String × String) (old : Edge),
      find_edge edges key = some old →
      ∃ new, find_edge (merge_edge edges e) key = some new ∧ new.meta = old.meta := by
  constructor
  · have hstart : merge_edges [] (r :: rest) = merge_edges [(k, r)] rest := by
      simp [merge_edges, List.foldl_cons, merge_edge, hr]
    obtain ⟨e', heq, _, _, hm⟩ := merge_edges_single rest k r hrest
    rw [hstart, heq]
    exact ⟨e', by simp [find_edge], hm⟩
  · intro edges e key old h
    obtain ⟨new, h1, _, _, h4⟩ := merge_edge_mono edges e key old h
    exact ⟨new, h1, h4⟩

/-- Witness for C9 (amended), merging two concrete records under one key. -/
theorem C9_meta_from_first_record_witness :
    ∃ e', find_edge
        (merge_edges []
          [{ source := "A", target := "B", kind := "ppi", source_db := "DB",
             score := none, support := 1, meta := some [("evidence", "first")] },
           { source := "A", target := "B", kind := "ppi", source_db := "DB",
             score := none, support := 1, meta := some [("evidence", "second")] }])
        (edge_key "A" "B" "ppi" "DB") = some e' ∧
      e'.meta = some [("evidence", "first")] := by
  obtain ⟨⟨e', h1, h2⟩, _⟩ :=
    C9_meta_from_first_record
      { source := "A", target := "B", kind := "ppi", source_db := "DB",
        score := none, support := 1, meta := some [("evidence", "first")] }
      [{ source := "A", target := "B", kind := "ppi", source_db := "DB",
         score := none, support := 1, meta := some [("evidence", "second")] }]
      (edge_key "A" "B" "ppi" "DB") rfl (by intro x hx; fin_cases hx <;> rfl)
  exact ⟨e', h1, h2⟩

/-- Embeds Python `str.lower()` (ASCII case folding, sufficient for the
identifiers involved), written on the character list so that it evaluates
inside the kernel. -/
def str_lower (s : String) : String := ⟨s.toList.map Char.toLower⟩

/-- Embeds Python `str.strip()`: drop leading and trailing whitespace. -/
def str_trim (s : String) : String :=
  ⟨((s.toList.dropWhile Char.isWhitespace).reverse.dropWhile Char.isWhitespace).reverse⟩

/-- Embeds Python `str.split(',')` on the character list: splitting the
empty string yields one empty field, like Python. -/
def split_commas_chars : List Char → List (List Char)
  | [] => [[]]
  | c :: rest =>
    match split_commas_chars rest with
    | [] => [[]]
    | g :: gs => if c = ',' then [] :: g :: gs else (c :: g) :: gs

/-- Embeds Python `src_csv.split(",")`. -/
def split_commas (s : String) : List String := (split_commas_chars s.toList).map String.mk

/-- The keys of `SUPPORTED_SOURCES` in src/app/main_backup_v2.py (the
descriptions play no role in source validation). -/
def SUPPORTED_SOURCES : List String :=
  ["string_ppi", "encori_rbp_by_target", "encori_rna_rna"]

/-- The `aliases` table of `_normalize_sources`. -/
def source_aliases : List (String × String) :=
  [("string", "string_ppi"), ("ppi", "string_ppi"),
   ("encori_rbp", "encori_rbp_by_target"), ("encori_rna", "encori_rna_rna")]

/-- Embeds `_normalize_sources`: split the comma-separated request, strip
and lower-case each token, drop empty tokens, map aliases, and keep only
supported source identifiers. -/
def normalize_sources (src_csv : String) : List String :=
  let toks := (split_commas src_csv).map (fun s => str_lower (str_trim s))
  let toks := toks.filter (fun s => s ≠ "")
  let mapped := toks.map (fun s => ((source_aliases.lookup s).getD s))
  mapped.filter (fun s => s ∈ SUPPORTED_SOURCES)

/-- Embeds `_default_min_coverage_v1`: a falsy (empty) mode defaults to
"majority" and is lower-cased; a seed count of at most 1 short-circuits
to 1; then "strict" maps to n, "any" to 1, and anything else (the
"majority" path) to the ceiling of n/2, which for naturals is (n+1)/2. -/
def default_min_coverage_v1 (mode : String) (n : Nat) : Nat :=
  let m := str_lower (if mode = "" then "majority" else mode)
  if n ≤ 1 then 1
  else if m = "strict" then n
  else if m = "any" then 1
  else (n + 1) / 2

/-- C8 counterexample: at seed count 0 the derivation is NOT the claimed
pure function — mode "strict" yields 1, not the seed count 0 (and
"majority" also yields 1, not ceiling(0/2) = 0). -/
theorem C8_counterexample :
    default_min_coverage_v1 "strict" 0 = 1 ∧
    default_min_coverage_v1 "majority" 0 = 1 ∧
    (1 : Nat) ≠ 0 ∧ (0 + 1) / 2 = 0 := by
  refine ⟨rfl, rfl, by decide, rfl⟩

/-- C8 (amended): for every seed count n ≥ 1 the derivation is the claimed
pure function of n — "strict" yields n, "majority" yields ceiling(n/2)
(= (n+1)/2 on naturals), "any" yields 1; for n ≤ 1 every mode yields 1. -/
theorem C8_min_coverage_modes (n : Nat) (h : 1 ≤ n) :
    (default_min_coverage_v1 "strict" n = n ∧
     default_min_coverage_v1 "majority" n = (n + 1) / 2 ∧
     default_min_coverage_v1 "any" n = 1) ∧
    ∀ mode : String, default_min_coverage_v1 mode 0 = 1 ∧
      default_min_coverage_v1 mode 1 = 1 := by
  have hs : str_lower "strict" = "strict" := by decide
  have hm : str_lower "majority" = "majority" := by decide
  have ha : str_lower "any" = "any" := by decide
  refine ⟨?_, fun mode => ⟨rfl, rfl⟩⟩
  rcases Nat.lt_or_ge n 2 with h2 | h2
  · have hn : n = 1 := by omega
    subst hn
    exact ⟨rfl, rfl, rfl⟩
  · have hn : ¬ n ≤ 1 := by omega
    refine ⟨?_, ?_, ?_⟩
    · simp [default_min_coverage_v1, hn, hs]
    · simp [default_min_coverage_v1, hn, hm]
    · simp [default_min_coverage_v1, hn, ha]

/-- Witness for C8 (amended) at the spec's example: 4 seeds give
min_coverage 2 under "majority", 4 under "strict" and 1 under "any". -/
theorem C8_min_coverage_modes_witness :
    default_min_coverage_v1 "majority" 4 = 2 ∧
    default_min_coverage_v1 "strict" 4 = 4 ∧
    default_min_coverage_v1 "any" 4 = 1 :=
  have h := (C8_min_coverage_modes 4 (by decide)).1
  ⟨h.2.1.trans (by decide), h.1, h.2.2⟩

/-- Embeds the network dict built by `build_network`: node list, edge list
and the claim-relevant metadata fields (`meta["seeds"]`, `meta["sources"]`,
`meta["pruned"]`, `meta["pruned_max_nodes"]`, `meta["counts"]`). -/
structure Network where
  nodes : List Node
  edges : List Edge
  seeds : List String
  sources : List String
  pruned : Bool := false
  pruned_max_nodes : Option Nat := none
  count_nodes : Nat := 0
  count_edges : Nat := 0
deriving DecidableEq, Repr

/-- The unordered node pair of an edge as `networkx` sees it (the undirected
graph collapses parallel edges between the same two nodes); canonicalized
by the lexicographic string order, written on character lists so that it
evaluates inside the kernel. -/
def canon_pair (u v : String) : String × String :=
  if v.toList < u.toList then (v, u) else (u, v)

/-- First-occurrence deduplication: the insertion order of a Python dict's
keys / of `nx.Graph.add_node` + `add_edge`. -/
def dedup_keep_first {α : Type} [DecidableEq α] (l : List α) : List α :=
  l.foldl (fun acc x => if x ∈ acc then acc else acc ++ [x]) []

/-- The node order of the `nx.Graph` built by `_build_graph`: the node list
in order, then any edge endpoint not already present, in edge order. -/
def graph_nodes (net : Network) : List String :=
  dedup_keep_first (net.nodes.map Node.id ++ net.edges.flatMap (fun e => [e.source, e.target]))

/-- The distinct undirected node pairs of the `nx.Graph` built by
`_build_graph` (parallel edges collapse). -/
def graph_pairs (net : Network) : List (String × String) :=
  dedup_keep_first (net.edges.map (fun e => canon_pair e.source e.target))

/-- The `networkx` degree of a node: number of distinct incident pairs, with a
self-loop counted twice. -/
def nx_degree (pairs : List (String × String)) (v : String) : Nat :=
  (pairs.filter (fun p => p.1 = v ∨ p.2 = v)).length +
    (pairs.filter (fun p => p.1 = v ∧ p.2 = v)).length

/-- Embeds `dict(g.degree())` of `_prune_network`: one (node, degree) item per
graph node, in node insertion order. -/
def deg_items (net : Network) : List (String × Nat) :=
  (graph_nodes net).map (fun v => (v, nx_degree (graph_pairs net) v))

/-- Embeds `sorted(deg.items(), key=lambda x: x[1], reverse=True)`: a stable sort
by degree descending — ties keep the insertion order of the items.
`List.insertionSort` with this relation is exactly such a stable sort. -/
def ranked_of (net : Network) : List (String × Nat) :=
  List.insertionSort (fun a b : String × Nat => b.2 ≤ a.2) (deg_items net)

/-- The greedy retain loop of `_prune_network`: iterate the ranked items,
stopping once the retained set has reached the budget, adding each node
not yet retained.  The retained set is modelled as a duplicate-free list
(`set.add` = append-if-absent, `len` = length). -/
def greedy_keep (budget : Nat) : List (String × Nat) → List String → List String
  | [], keep => keep
  | x :: rest, keep =>
    if budget ≤ keep.length then keep
    else greedy_keep budget rest (if x.1 ∈ keep then keep else keep ++ [x.1])

/-- Embeds `_prune_network`: no-op when the budget is disabled (Python
`max_nodes <= 0`, here `= 0` on naturals) or the node count is within
budget; otherwise retain `set(seeds)` plus ranked nodes greedily, then
keep only nodes and edges inside the retained set and update metadata. -/
def prune_network (net : Network) (seeds : List String) (max_nodes : Nat) : Network :=
  if max_nodes = 0 then net
  else if net.nodes.length ≤ max_nodes then net
  else
    let keep := greedy_keep max_nodes (ranked_of net) (dedup_keep_first seeds)
    let nodes2 := net.nodes.filter (fun n => n.id ∈ keep)
    let edges2 := net.edges.filter (fun e => e.source ∈ keep ∧ e.target ∈ keep)
    { net with
      nodes := nodes2
      edges := edges2
      pruned := true
      pruned_max_nodes := some max_nodes
      count_nodes := nodes2.length
      count_edges := edges2.length }

section DedupLemmas

variable {α : Type} [DecidableEq α]

/-- The fold of `dedup_keep_first` started from an arbitrary accumulator. -/
def dkf_go (acc : List α) (l : List α) : List α :=
  l.foldl (fun acc x => if x ∈ acc then acc else acc ++ [x]) acc

lemma dkf_go_append (acc l₁ l₂ : List α) :
    dkf_go acc (l₁ ++ l₂) = dkf_go (dkf_go acc l₁) l₂ := by
  simp [dkf_go, List.foldl_append]

lemma dkf_go_subset (l : List α) : ∀ acc : List α, (∀ x ∈ l, x ∈ acc) → dkf_go acc l = acc := by
  induction l with
  | nil => intro acc _; rfl
  | cons x rest ih =>
    intro acc h
    show dkf_go (if x ∈ acc then acc else acc ++ [x]) rest = acc
    rw [if_pos (h x (List.mem_cons_self x rest))]
    exact ih acc (fun y hy => h y (List.mem_cons_of_mem x hy))

lemma dkf_go_disjoint (l : List α) : ∀ acc : List α, (∀ x ∈ l, x ∉ acc) → l.Nodup →
    dkf_go acc l = acc ++ l := by
  induction l with
  | nil => intro acc _ _; simp [dkf_go]
  | cons x rest ih =>
    intro acc h hnd
    show dkf_go (if x ∈ acc then acc else acc ++ [x]) rest = acc ++ x :: rest
    rw [if_neg (h x (List.mem_cons_self x rest))]
    rw [ih (acc ++ [x]) ?_ (List.nodup_cons.mp hnd).2]
    · simp
    · intro y hy hmem
      rcases List.mem_append.mp hmem with hya | hyx
      · exact h y (List.mem_cons_of_mem x hy) hya
      · rw [List.mem_singleton] at hyx
        exact (List.nodup_cons.mp hnd).1 (hyx ▸ hy)

lemma dkf_go_mem (l : List α) : ∀ (acc : List α) (a : α),
    a ∈ dkf_go acc l ↔ a ∈ acc ∨ a ∈ l := by
  induction l with
  | nil => simp [dkf_go]
  | cons x rest ih =>
    intro acc a
    show a ∈ dkf_go (if x ∈ acc then acc else acc ++ [x]) rest ↔ _
    by_cases hx : x ∈ acc
    · rw [if_pos hx, ih]
      constructor
      · rintro (h | h)
        · exact Or.inl h
        · exact Or.inr (List.mem_cons_of_mem x h)
      · rintro (h | h)
        · exact Or.inl h
        · rcases List.mem_cons.mp h with rfl | h
          · exact Or.inl hx
          · exact Or.inr h
    · rw [if_neg hx, ih]
      simp [List.mem_append, List.mem_cons]
      tauto

lemma dkf_go_nodup (l : List α) : ∀ acc : List α, acc.Nodup → (dkf_go acc l).Nodup := by
  induction l with
  | nil => exact fun acc h => h
  | cons x rest ih =>
    intro acc h
    show (dkf_go (if x ∈ acc then acc else acc ++ [x]) rest).Nodup
    by_cases hx : x ∈ acc
    · rw [if_pos hx]; exact ih acc h
    · rw [if_neg hx]
      refine ih (acc ++ [x]) ?_
      simp [List.nodup_append, h, hx]

lemma dedup_keep_first_nodup (l : List α) : (dedup_keep_first l).Nodup :=
  dkf_go_nodup l [] List.nodup_nil

lemma dedup_keep_first_mem (l : List α) (a : α) : a ∈ dedup_keep_first l ↔ a ∈ l := by
  rw [show dedup_keep_first l = dkf_go [] l from rfl, dkf_go_mem]
  simp

lemma dedup_keep_first_of_nodup (l : List α) (h : l.Nodup) : dedup_keep_first l = l := by
  rw [show dedup_keep_first l = dkf_go [] l from rfl,
    dkf_go_disjoint l [] (by simp) h]
  simp

lemma dedup_keep_first_append_subset (l extra : List α) (h : l.Nodup)
    (hsub : ∀ x ∈ extra, x ∈ l) : dedup_keep_first (l ++ extra) = l := by
  rw [show dedup_keep_first (l ++ extra) = dkf_go [] (l ++ extra) from rfl,
    dkf_go_append]
  rw [show dkf_go [] l = dedup_keep_first l from rfl, dedup_keep_first_of_nodup l h]
  exact dkf_go_subset extra l hsub

end DedupLemmas

/-- Closed form of the greedy retain loop: starting from a retained list
`keep`, on ranked items whose nodes are distinct, the loop appends exactly
the first `budget - keep.length` ranked nodes not already retained. -/
lemma greedy_keep_closed (budget : Nat) :
    ∀ (pairs : List (String × Nat)) (keep : List String),
      (pairs.map Prod.fst).Nodup →
      greedy_keep budget pairs keep =
        keep ++ ((pairs.map Prod.fst).filter (fun v => v ∉ keep)).take (budget - keep.length) := by
  intro pairs
  induction pairs with
  | nil => intro keep _; simp [greedy_keep]
  | cons x rest ih =>
    intro keep hnd
    rw [List.map_cons, List.nodup_cons] at hnd
    show (if budget ≤ keep.length then keep
      else greedy_keep budget rest (if x.1 ∈ keep then keep else keep ++ [x.1])) = _
    by_cases hb : budget ≤ keep.length
    · rw [if_pos hb, Nat.sub_eq_zero_of_le hb]
      simp
    · rw [if_neg hb]
      by_cases hx : x.1 ∈ keep
      · rw [if_pos hx, ih keep hnd.2]
        have hfil : (x.1 :: rest.map Prod.fst).filter (fun v => v ∉ keep)
            = (rest.map Prod.fst).filter (fun v => v ∉ keep) := by
          simp [List.filter_cons, hx]
        rw [List.map_cons, hfil]
      · rw [if_neg hx, ih (keep ++ [x.1]) hnd.2]
        have hfeq : (rest.map Prod.fst).filter (fun v => v ∉ keep ++ [x.1])
            = (rest.map Prod.fst).filter (fun v => v ∉ keep) := by
          apply List.filter_congr
          intro v hv
          have hvx : v ≠ x.1 := fun h => hnd.1 (h ▸ hv)
          simp [List.mem_append, hvx]
        have hfil : (x.1 :: rest.map Prod.fst).filter (fun v => v ∉ keep)
            = x.1 :: (rest.map Prod.fst).filter (fun v => v ∉ keep) := by
          simp [List.filter_cons, hx]
        have harith : budget - keep.length = (budget - (keep ++ [x.1]).length) + 1 := by
          simp only [List.length_append, List.length_singleton]
          omega
        rw [hfeq, List.map_cons, hfil, harith, List.take_succ_cons]
        simp [List.append_assoc]

instance : IsTotal (String × Nat) (fun a b => b.2 ≤ a.2) :=
  ⟨fun a b => le_total b.2 a.2⟩

instance : IsTrans (String × Nat) (fun a b => b.2 ≤ a.2) :=
  ⟨fun _ _ _ h1 h2 => le_trans h2 h1⟩

/-- The retained set computed inside `_prune_network`. -/
def keep_of (net : Network) (seeds : List String) (maxN : Nat) : List String :=
  greedy_keep maxN (ranked_of net) (dedup_keep_first seeds)

lemma ranked_of_sorted (net : Network) :
    List.Pairwise (fun a b : String × Nat => b.2 ≤ a.2) (ranked_of net) :=
  List.sorted_insertionSort (fun a b : String × Nat => b.2 ≤ a.2) (deg_items net)

lemma ranked_of_perm (net : Network) :
    List.Perm ((ranked_of net).map Prod.fst) (graph_nodes net) := by
  have h := (List.perm_insertionSort
    (fun a b : String × Nat => b.2 ≤ a.2) (deg_items net)).map Prod.fst
  simpa [ranked_of, deg_items, List.map_map, Function.comp_def] using h

lemma graph_nodes_eq (net : Network)
    (hnodup : (net.nodes.map Node.id).Nodup)
    (hclosed : ∀ e ∈ net.edges,
      e.source ∈ net.nodes.map Node.id ∧ e.target ∈ net.nodes.map Node.id) :
    graph_nodes net = net.nodes.map Node.id := by
  apply dedup_keep_first_append_subset _ _ hnodup
  intro x hx
  obtain ⟨e, he, hxe⟩ := List.mem_flatMap.mp hx
  rcases List.mem_cons.mp hxe with rfl | hxe2
  · exact (hclosed e he).1
  · rw [List.mem_singleton.mp hxe2]
    exact (hclosed e he).2

/-- The unfolding of `_prune_network` when the budget is enabled and the
node count exceeds it. -/
lemma prune_network_eq (net : Network) (seeds : List String) (maxN : Nat)
    (hb : maxN ≠ 0) (hgt : maxN < net.nodes.length) :
    prune_network net seeds maxN =
      { net with
        nodes := net.nodes.filter (fun n => n.id ∈ keep_of net seeds maxN)
        edges := net.edges.filter
          (fun e => e.source ∈ keep_of net seeds maxN ∧ e.target ∈ keep_of net seeds maxN)
        pruned := true
        pruned_max_nodes := some maxN
        count_nodes := (net.nodes.filter (fun n => n.id ∈ keep_of net seeds maxN)).length
        count_edges := (net.edges.filter
          (fun e => e.source ∈ keep_of net seeds maxN ∧ e.target ∈ keep_of net seeds maxN)).length } := by
  rw [prune_network, if_neg hb, if_neg (not_le.mpr hgt)]
  rfl

section PruneFacts

variable (net : Network) (seeds : List String) (maxN : Nat)

lemma ranked_ids_nodup
    (hnodup : (net.nodes.map Node.id).Nodup)
    (hclosed : ∀ e ∈ net.edges,
      e.source ∈ net.nodes.map Node.id ∧ e.target ∈ net.nodes.map Node.id) :
    ((ranked_of net).map Prod.fst).Nodup :=
  (List.Perm.nodup_iff (ranked_of_perm net)).mpr (dedup_keep_first_nodup _)

lemma keep_of_closed
    (hnodup : (net.nodes.map Node.id).Nodup)
    (hclosed : ∀ e ∈ net.edges,
      e.source ∈ net.nodes.map Node.id ∧ e.target ∈ net.nodes.map Node.id) :
    keep_of net seeds maxN =
      dedup_keep_first seeds ++
        (((ranked_of net).map Prod.fst).filter
          (fun v => v ∉ dedup_keep_first seeds)).take
          (maxN - (dedup_keep_first seeds).length) :=
  greedy_keep_closed maxN (ranked_of net) (dedup_keep_first seeds)
    (ranked_ids_nodup net hnodup hclosed)

lemma keep_of_nodup
    (hnodup : (net.nodes.map Node.id).Nodup)
    (hclosed : ∀ e ∈ net.edges,
      e.source ∈ net.nodes.map Node.id ∧ e.target ∈ net.nodes.map Node.id) :
    (keep_of net seeds maxN).Nodup := by
  rw [keep_of_closed net seeds maxN hnodup hclosed]
  refine List.Nodup.append (dedup_keep_first_nodup _) ?_ ?_
  · exact ((List.take_sublist _ _).trans (List.filter_sublist _)).nodup
      (ranked_ids_nodup net hnodup hclosed)
  · intro a ha hmem
    have h2 := List.of_mem_filter (List.mem_of_mem_take hmem)
    exact (of_decide_eq_true h2) ha

lemma keep_of_subset
    (hnodup : (net.nodes.map Node.id).Nodup)
    (hclosed : ∀ e ∈ net.edges,
      e.source ∈ net.nodes.map Node.id ∧ e.target ∈ net.nodes.map Node.id)
    (hseeds : ∀ s ∈ seeds, s ∈ net.nodes.map Node.id) :
    ∀ x ∈ keep_of net seeds maxN, x ∈ net.nodes.map Node.id := by
  intro x hx
  rw [keep_of_closed net seeds maxN hnodup hclosed] at hx
  rcases List.mem_append.mp hx with h | h
  · exact hseeds x ((dedup_keep_first_mem seeds x).mp h)
  · have h2 : x ∈ (ranked_of net).map Prod.fst :=
      List.mem_of_mem_filter (List.mem_of_mem_take h)
    have h3 := (ranked_of_perm net).mem_iff.mp h2
    rwa [graph_nodes_eq net hnodup hclosed] at h3

lemma keep_of_length
    (hgt : maxN < net.nodes.length)
    (hnodup : (net.nodes.map Node.id).Nodup)
    (hclosed : ∀ e ∈ net.edges,
      e.source ∈ net.nodes.map Node.id ∧ e.target ∈ net.nodes.map Node.id)
    (hseeds : ∀ s ∈ seeds, s ∈ net.nodes.map Node.id)
    (hsb : (dedup_keep_first seeds).length ≤ maxN) :
    (keep_of net seeds maxN).length = maxN := by
  have hperm : List.Perm ((ranked_of net).map Prod.fst) (net.nodes.map Node.id) := by
    have h := ranked_of_perm net
    rwa [graph_nodes_eq net hnodup hclosed] at h
  have hRnd : ((ranked_of net).map Prod.fst).Nodup := ranked_ids_nodup net hnodup hclosed
  have hRlen : ((ranked_of net).map Prod.fst).length = net.nodes.length := by
    rw [hperm.length_eq, List.length_map]
  have hssub : ∀ x ∈ dedup_keep_first seeds, x ∈ (ranked_of net).map Prod.fst := by
    intro x hx
    exact hperm.mem_iff.mpr (hseeds x ((dedup_keep_first_mem seeds x).mp hx))
  have hin : (((ranked_of net).map Prod.fst).filter
      (fun v => v ∈ dedup_keep_first seeds)).length = (dedup_keep_first seeds).length := by
    have hp : List.Perm (((ranked_of net).map Prod.fst).filter
        (fun v => v ∈ dedup_keep_first seeds)) (dedup_keep_first seeds) := by
      refine (List.perm_ext_iff_of_nodup ((List.filter_sublist _).nodup hRnd)
        (dedup_keep_first_nodup _)).mpr ?_
      intro a
      simp only [List.mem_filter, decide_eq_true_eq]
      exact ⟨fun h => h.2, fun h => ⟨hssub a h, h⟩⟩
    exact hp.length_eq
  have hpart := List.length_eq_length_filter_add
    (l := (ranked_of net).map Prod.fst) (fun v => decide (v ∈ dedup_keep_first seeds))
  have hnotf : (((ranked_of net).map Prod.fst).filter
      (fun v => !decide (v ∈ dedup_keep_first seeds))) =
      (((ranked_of net).map Prod.fst).filter (fun v => v ∉ dedup_keep_first seeds)) := by
    apply List.filter_congr
    intro v _
    simp
  rw [keep_of_closed net seeds maxN hnodup hclosed, List.length_append, List.length_take]
  rw [hnotf] at hpart
  rw [hin] at hpart
  omega

lemma prune_nodes_id_filter
    (hnodup : (net.nodes.map Node.id).Nodup)
    (hclosed : ∀ e ∈ net.edges,
      e.source ∈ net.nodes.map Node.id ∧ e.target ∈ net.nodes.map Node.id)
    (hseeds : ∀ s ∈ seeds, s ∈ net.nodes.map Node.id) :
    (net.nodes.filter (fun n => n.id ∈ keep_of net seeds maxN)).length
      = (keep_of net seeds maxN).length := by
  have hfil : (net.nodes.map Node.id).filter (fun v => v ∈ keep_of net seeds maxN)
      = (net.nodes.filter (fun n => n.id ∈ keep_of net seeds maxN)).map Node.id := by
    rw [List.filter_map]
    rfl
  have hp : List.Perm
      ((net.nodes.map Node.id).filter (fun v => v ∈ keep_of net seeds maxN))
      (keep_of net seeds maxN) := by
    refine (List.perm_ext_iff_of_nodup ((List.filter_sublist _).nodup hnodup)
      (keep_of_nodup net seeds maxN hnodup hclosed)).mpr ?_
    intro a
    simp only [List.mem_filter, decide_eq_true_eq]
    exact ⟨fun h => h.2,
      fun h => ⟨keep_of_subset net seeds maxN hnodup hclosed hseeds a h, h⟩⟩
  have := hp.length_eq
  rwa [hfil, List.length_map] at this

end PruneFacts

/-- C1 (amended): when the budget is enabled and exceeded, pruning keeps
exactly the retained set — all (deduplicated) seeds plus the
highest-degree remaining nodes, in the ranked order whose ties are broken
by the node's insertion position (NOT by identifier), until the budget is
met — and drops every node and edge outside it; the ranked list is sorted
by degree descending; when the seeds fit in the budget the pruned network
has exactly `maxN` nodes (for the spec's example: 3 seeds plus the 47
top-ranked non-seed nodes). -/
theorem C1_prune_budget (net : Network) (seeds : List String) (maxN : Nat)
    (hb : maxN ≠ 0) (hgt : maxN < net.nodes.length)
    (hnodup : (net.nodes.map Node.id).Nodup)
    (hclosed : ∀ e ∈ net.edges,
      e.source ∈ net.nodes.map Node.id ∧ e.target ∈ net.nodes.map Node.id)
    (hseeds : ∀ s ∈ seeds, s ∈ net.nodes.map Node.id)
    (hsb : (dedup_keep_first seeds).length ≤ maxN) :
    ((prune_network net seeds maxN).nodes
        = net.nodes.filter (fun n => n.id ∈ keep_of net seeds maxN) ∧
      (prune_network net seeds maxN).edges
        = net.edges.filter (fun e =>
            e.source ∈ keep_of net seeds maxN ∧ e.target ∈ keep_of net seeds maxN)) ∧
    List.Pairwise (fun a b : String × Nat => b.2 ≤ a.2) (ranked_of net) ∧
    keep_of net seeds maxN
      = dedup_keep_first seeds ++
        (((ranked_of net).map Prod.fst).filter (fun v => v ∉ dedup_keep_first seeds)).take
          (maxN - (dedup_keep_first seeds).length) ∧
    (∀ n ∈ net.nodes, n.id ∈ seeds → n ∈ (prune_network net seeds maxN).nodes) ∧
    (∀ e ∈ (prune_network net seeds maxN).edges,
      e.source ∈ (prune_network net seeds maxN).nodes.map Node.id ∧
      e.target ∈ (prune_network net seeds maxN).nodes.map Node.id) ∧
    (prune_network net seeds maxN).nodes.length = maxN := by
  have hPeq := prune_network_eq net seeds maxN hb hgt
  have hkeepmem : ∀ x ∈ seeds, x ∈ keep_of net seeds maxN := by
    intro x hx
    rw [keep_of_closed net seeds maxN hnodup hclosed]
    exact List.mem_append.mpr (Or.inl ((dedup_keep_first_mem seeds x).mpr hx))
  have hnodes : (prune_network net seeds maxN).nodes
      = net.nodes.filter (fun n => n.id ∈ keep_of net seeds maxN) := by rw [hPeq]
  have hedges : (prune_network net seeds maxN).edges
      = net.edges.filter (fun e =>
          e.source ∈ keep_of net seeds maxN ∧ e.target ∈ keep_of net seeds maxN) := by
    rw [hPeq]
  refine ⟨⟨hnodes, hedges⟩, ranked_of_sorted net,
    keep_of_closed net seeds maxN hnodup hclosed, ?_, ?_, ?_⟩
  · intro n hn hns
    rw [hnodes]
    simp only [List.mem_filter, decide_eq_true_eq]
    exact ⟨hn, hkeepmem n.id hns⟩
  · intro e he
    rw [hedges] at he
    simp only [List.mem_filter, decide_eq_true_eq] at he
    obtain ⟨hemem, hsrc, htgt⟩ := he
    constructor
    · obtain ⟨n, hn, hnid⟩ := List.mem_map.mp (hclosed e hemem).1
      refine List.mem_map.mpr ⟨n, ?_, hnid⟩
      rw [hnodes]
      simp only [List.mem_filter, decide_eq_true_eq]
      exact ⟨hn, by rw [hnid]; exact hsrc⟩
    · obtain ⟨n, hn, hnid⟩ := List.mem_map.mp (hclosed e hemem).2
      refine List.mem_map.mpr ⟨n, ?_, hnid⟩
      rw [hnodes]
      simp only [List.mem_filter, decide_eq_true_eq]
      exact ⟨hn, by rw [hnid]; exact htgt⟩
  · rw [hnodes,
      prune_nodes_id_filter net seeds maxN hnodup hclosed hseeds,
      keep_of_length net seeds maxN hgt hnodup hclosed hseeds hsb]

/-- A concrete fused network: one seed "s" of degree 2, and two degree-1
nodes "b" (inserted before "a") and "a". -/
def prune_example_net : Network :=
  { nodes :=
      [{ id := "s", label := "s", kind := "protein", sources := ["STRING"] },
       { id := "b", label := "b", kind := "protein", sources := ["STRING"] },
       { id := "a", label := "a", kind := "protein", sources := ["STRING"] }]
    edges :=
      [{ source := "s", target := "b", kind := "ppi", source_db := "STRING" },
       { source := "s", target := "a", kind := "ppi", source_db := "STRING" }]
    seeds := ["s"]
    sources := ["string_ppi"] }

/-- C1 counterexample: degree ties are NOT broken by node identifier
ascending. In `prune_example_net` nodes "a" and "b" tie with degree 1 and
"a" < "b", yet pruning to budget 2 retains ["s", "b"] (list position wins),
not the ["s", "a"] the claim's tie-break prescribes. -/
theorem C1_counterexample :
    (prune_network prune_example_net ["s"] 2).nodes.map Node.id = ["s", "b"] ∧
    nx_degree (graph_pairs prune_example_net) "a"
      = nx_degree (graph_pairs prune_example_net) "b" ∧
    "a".toList < "b".toList ∧
    (prune_network prune_example_net ["s"] 2).nodes.map Node.id ≠ ["s", "a"] := by
  refine ⟨?_, by decide, by decide, ?_⟩ <;> decide

/-- Witness for C1 (amended) on `prune_example_net` with budget 2: the
pruned network has exactly 2 nodes and retains the seed. -/
theorem C1_prune_budget_witness :
    (prune_network prune_example_net ["s"] 2).nodes.length = 2 ∧
    ∀ n ∈ prune_example_net.nodes, n.id ∈ ["s"] →
      n ∈ (prune_network prune_example_net ["s"] 2).nodes := by
  obtain ⟨_, _, _, hseedkept, _, hlen⟩ :=
    C1_prune_budget prune_example_net ["s"] 2 (by decide) (by decide)
      (by decide) (by decide) (by decide) (by decide)
  exact ⟨hlen, hseedkept⟩

/-- One entry of a candidate's capped evidence list in
`_regulon_overlap_v1`. -/
structure Evid where
  seed : String
  source_db : String
  kind : String
  score : Option ℚ
  support : Nat
deriving DecidableEq, Repr

/-- The per-neighbor accumulator dict of `_regulon_overlap_v1`: hit_seeds
and db_set are Python sets (modelled as duplicate-free lists), seed_best a
dict seed → best weight. -/
structure RItem where
  node : String
  kind : String
  hit_seeds : List String
  seed_best : List (String × ℚ)
  db_set : List String
  evidence : List Evid
  degree : Nat
deriving DecidableEq, Repr

/-- One ranked candidate record of `_regulon_overlap_v1`'s output. -/
structure RegCand where
  node : String
  kind : String
  coverage : Nat
  coverage_ratio : ℚ
  confidence_sum : ℚ
  confidence_mean : ℚ
  db_support : Nat
  degree : Nat
  specificity_score : ℚ
  hit_seeds : List String
  evidence : List Evid
deriving DecidableEq, Repr

/-- The result dict of `_regulon_overlap_v1` (the zero-seed early return
carries no candidate or count fields; they are 0/[] here). -/
structure RegulonResult where
  seed_count : Nat
  seeds : List String
  min_coverage : Nat
  total_candidates : Nat
  intersection_count : Nat
  top_interactors : List RegCand
  intersection_top : List RegCand
deriving DecidableEq, Repr

/-- Embeds `[str(s).strip() for s in seeds if str(s).strip()]`. -/
def clean_seeds (seeds : List String) : List String :=
  (seeds.map str_trim).filter (fun s => s ≠ "")

/-- The seed deduplication loop of `_regulon_overlap_v1`: exact-match,
first-seen order. -/
def dedup_seeds (seeds : List String) : List String :=
  dedup_keep_first (clean_seeds seeds)

/-- Embeds `node_kind` lookup: the dict comprehension keyed by id with
`.get(v, "unknown")`: later dict entries overwrite earlier ones, falsy
(empty) identifiers are skipped. -/
def node_kind_of (nodes : List Node) (v : String) : String :=
  match (nodes.filter (fun n => n.id = v ∧ n.id ≠ "")).getLast? with
  | some n => n.kind
  | none => "unknown"

/-- The edges surviving `if not a or not b: continue` in the adjacency
walk (falsy endpoints modelled as the empty string). -/
def valid_edges (edges : List Edge) : List Edge :=
  edges.filter (fun e => e.source ≠ "" ∧ e.target ≠ "")

/-- The degree counter of `_regulon_overlap_v1`: every edge record counts
once per endpoint (no deduplication; a self-edge counts twice). -/
def deg_of (edges : List Edge) (v : String) : Nat :=
  ((valid_edges edges).filter (fun e => e.source = v)).length +
    ((valid_edges edges).filter (fun e => e.target = v)).length

/-- The adjacency list `adj[v]` of `_regulon_overlap_v1`, in edge order:
an edge contributes `(target, e)` when its source is `v` and `(source, e)`
when its target is `v`. -/
def adj_of (edges : List Edge) (v : String) : List (String × Edge) :=
  (valid_edges edges).flatMap (fun e =>
    (if e.source = v then [(e.target, e)] else []) ++
      (if e.target = v then [(e.source, e)] else []))

/-- Embeds `it.seed_best.get(seed, 0.0)`. -/
def seed_best_get (sb : List (String × ℚ)) (seed : String) : ℚ :=
  ((sb.find? (fun p => p.1 = seed)).map Prod.snd).getD 0

/-- Embeds the dict insert-or-update of the per-seed best weight. -/
def seed_best_set : List (String × ℚ) → String → ℚ → List (String × ℚ)
  | [], k, v => [(k, v)]
  | (k₀, v₀) :: rest, k, v =>
    if k₀ = k then (k₀, v) :: rest else (k₀, v₀) :: seed_best_set rest k v

/-- The body of the neighbor walk applied to one existing (or fresh) item:
add the seed to hit_seeds, raise the per-seed best weight if the new
weight is strictly larger, record a non-falsy source database, and append
the evidence entry.  `w` stands for `_reg_edge_weight_v1`, whose float
arithmetic (log1p, clamping, division by 1000) is kept abstract; every
theorem below quantifies over it. -/
def upd_item (w : Edge → ℚ) (seed : String) (e : Edge) (it : RItem) : RItem :=
  let hit := if seed ∈ it.hit_seeds then it.hit_seeds else it.hit_seeds ++ [seed]
  let wv := w e
  let sb := if wv > seed_best_get it.seed_best seed
    then seed_best_set it.seed_best seed wv else it.seed_best
  let dbs := if e.source_db ≠ ""
    then (if e.source_db ∈ it.db_set then it.db_set else it.db_set ++ [e.source_db])
    else it.db_set
  { it with
    hit_seeds := hit
    seed_best := sb
    db_set := dbs
    evidence := it.evidence ++
      [{ seed := seed, source_db := e.source_db, kind := e.kind,
         score := e.score, support := e.support }] }

/-- Embeds the `items.get(nbr)` / fresh-item creation followed by the update: the
items dict is insertion-ordered, so a fresh neighbor is appended. -/
def upd_items (w : Edge → ℚ) (kind_of : String → String) (deg : String → Nat)
    (seed : String) (e : Edge) (nbr : String) : List RItem → List RItem
  | [] => [upd_item w seed e
      { node := nbr, kind := kind_of nbr, hit_seeds := [], seed_best := [],
        db_set := [], evidence := [], degree := deg nbr }]
  | it :: rest =>
    if it.node = nbr then upd_item w seed e it :: rest
    else it :: upd_items w kind_of deg seed e nbr rest

/-- The double walk of `_regulon_overlap_v1`: for each deduplicated seed,
for each adjacent `(nbr, e)`, skip seed neighbors when
`exclude_seed_nodes`, otherwise update the neighbor's item. -/
def regulon_items (w : Edge → ℚ) (netw : Network) (seedsU : List String)
    (exclude : Bool) : List RItem :=
  seedsU.foldl (fun items seed =>
    (adj_of netw.edges seed).foldl (fun items p =>
      if exclude ∧ p.1 ∈ seedsU then items
      else upd_items w (node_kind_of netw.nodes) (deg_of netw.edges) seed p.2 p.1 items)
    items) []

/-- Build one output candidate from an item: coverage, confidence sum and
mean, db diversity, specificity.  `roundQ` stands for Python's
`round(·, 6)` and `log_den d` for `math.log1p(d) + 1e-9`; the sorted
hit_seeds use the lexicographic string order on character lists, which
coincides with the `String` order. -/
def cand_of_item (roundQ : ℚ → ℚ) (log_den : Nat → ℚ) (n_seeds : Nat)
    (it : RItem) : RegCand :=
  let cov := it.hit_seeds.length
  let conf_sum : ℚ := (it.seed_best.map Prod.snd).sum
  let conf_mean : ℚ := if 0 < cov then conf_sum / (cov : ℚ) else 0
  let spec : ℚ := conf_sum / log_den it.degree
  { node := it.node
    kind := it.kind
    coverage := cov
    coverage_ratio := (cov : ℚ) / (n_seeds : ℚ)
    confidence_sum := roundQ conf_sum
    confidence_mean := roundQ conf_mean
    db_support := it.db_set.length
    degree := it.degree
    specificity_score := roundQ spec
    hit_seeds := List.insertionSort (fun a b : String => a.toList ≤ b.toList) it.hit_seeds
    evidence := it.evidence.take 50 }

/-- The pre-sort candidate list (`out` before `out.sort`): items in
insertion order, those below `min_coverage` discarded. -/
def survivors (w : Edge → ℚ) (roundQ : ℚ → ℚ) (log_den : Nat → ℚ)
    (netw : Network) (seedsU : List String) (min_coverage : Nat)
    (exclude : Bool) : List RegCand :=
  ((regulon_items w netw seedsU exclude).filter
      (fun it => ¬ it.hit_seeds.length < min_coverage)).map
    (cand_of_item roundQ log_den seedsU.length)

/-- Strict comparison of the Python sort key
`(-coverage, -specificity_score, -confidence_sum, -db_support, node)`:
`cand_lt a b` holds when `a`'s key tuple is strictly smaller (so `a` sorts
strictly before `b`). -/
def cand_lt (a b : RegCand) : Prop :=
  b.coverage < a.coverage ∨ (a.coverage = b.coverage ∧
    (b.specificity_score < a.specificity_score ∨
      (a.specificity_score = b.specificity_score ∧
        (b.confidence_sum < a.confidence_sum ∨
          (a.confidence_sum = b.confidence_sum ∧
            (b.db_support < a.db_support ∨ (a.db_support = b.db_support ∧
              a.node.toList < b.node.toList)))))))

instance cand_lt_decidable : ∀ a b : RegCand, Decidable (cand_lt a b) := by
  intro a b
  unfold cand_lt
  infer_instance

/-- Candidate `a` may sort before `b` (key of `a` ≤ key of `b`): what a stable sort
with Python's `list.sort(key=...)` realizes. -/
def cand_le (a b : RegCand) : Prop := ¬ cand_lt b a

instance cand_le_decidable : ∀ a b : RegCand, Decidable (cand_le a b) := by
  intro a b
  unfold cand_le
  infer_instance

/-- Embeds `_regulon_overlap_v1` (with the edge-weight transform, the
6-decimal rounding and the specificity denominator abstracted as `w`,
`roundQ`, `log_den`): deduplicate seeds, early-return on zero seeds,
otherwise build, filter, stably sort the candidates by the Python key and
report the top slice plus the full-coverage intersection slice. -/
def regulon_overlap_v1 (w : Edge → ℚ) (roundQ : ℚ → ℚ) (log_den : Nat → ℚ)
    (netw : Network) (seeds : List String) (min_coverage : Nat) (top : Nat)
    (exclude_seed_nodes : Bool) : RegulonResult :=
  let seedsU := dedup_seeds seeds
  if seedsU = [] then
    { seed_count := 0, seeds := [], min_coverage := min_coverage,
      total_candidates := 0, intersection_count := 0,
      top_interactors := [], intersection_top := [] }
  else
    let out := List.insertionSort cand_le
      (survivors w roundQ log_den netw seedsU min_coverage exclude_seed_nodes)
    let inter := out.filter (fun x => x.coverage = seedsU.length)
    { seed_count := seedsU.length, seeds := seedsU, min_coverage := min_coverage,
      total_candidates := out.length, intersection_count := inter.length,
      top_interactors := out.take top, intersection_top := inter.take top }

lemma dkf_go_sublist {α : Type} [DecidableEq α] (l : List α) :
    ∀ acc : List α, ∃ l', dkf_go acc l = acc ++ l' ∧ l'.Sublist l := by
  induction l with
  | nil => exact fun acc => ⟨[], by simp [dkf_go], List.Sublist.refl []⟩
  | cons x rest ih =>
    intro acc
    show ∃ l', dkf_go (if x ∈ acc then acc else acc ++ [x]) rest = acc ++ l' ∧ _
    by_cases hx : x ∈ acc
    · rw [if_pos hx]
      obtain ⟨l', h1, h2⟩ := ih acc
      exact ⟨l', h1, h2.cons x⟩
    · rw [if_neg hx]
      obtain ⟨l', h1, h2⟩ := ih (acc ++ [x])
      exact ⟨x :: l', by rw [h1]; simp, h2.cons₂ x⟩

lemma dedup_keep_first_sublist {α : Type} [DecidableEq α] (l : List α) :
    (dedup_keep_first l).Sublist l := by
  obtain ⟨l', h1, h2⟩ := dkf_go_sublist l []
  rw [show dedup_keep_first l = dkf_go [] l from rfl, h1]
  simpa using h2

/-- C7 (amended): the scorer deduplicates the stripped seed list by EXACT
string match (not case-normalized), preserving first-seen order (the
deduplicated list is a duplicate-free subsequence of the stripped list
with the same members), and an empty deduplicated list yields the empty
result (seed_count 0, no candidates); a non-empty one reports its length
as seed_count. -/
theorem C7_seed_dedup (w : Edge → ℚ) (roundQ : ℚ → ℚ) (log_den : Nat → ℚ)
    (netw : Network) (seeds : List String) (mc top : Nat) (ex : Bool) :
    (dedup_seeds seeds).Nodup ∧
    (dedup_seeds seeds).Sublist (clean_seeds seeds) ∧
    (∀ s, s ∈ dedup_seeds seeds ↔ s ∈ clean_seeds seeds) ∧
    (dedup_seeds seeds = [] →
      regulon_overlap_v1 w roundQ log_den netw seeds mc top ex =
        { seed_count := 0, seeds := [], min_coverage := mc, total_candidates := 0,
          intersection_count := 0, top_interactors := [], intersection_top := [] }) ∧
    (dedup_seeds seeds ≠ [] →
      (regulon_overlap_v1 w roundQ log_den netw seeds mc top ex).seed_count
        = (dedup_seeds seeds).length ∧
      (regulon_overlap_v1 w roundQ log_den netw seeds mc top ex).seeds
        = dedup_seeds seeds) := by
  refine ⟨dedup_keep_first_nodup _, dedup_keep_first_sublist _,
    fun s => dedup_keep_first_mem _ s, ?_, ?_⟩
  · intro h
    rw [regulon_overlap_v1]
    rw [if_pos h]
  · intro h
    rw [regulon_overlap_v1]
    rw [if_neg h]
    exact ⟨rfl, rfl⟩

/-- C7 counterexample: seeds "TP53" and "tp53", which differ only in case,
are NOT merged by the deduplication — the reported seed_count is 2, where
the claim requires 1. -/
theorem C7_counterexample :
    (regulon_overlap_v1 (fun _ => 0) (fun q => q) (fun _ => 1)
      { nodes := [], edges := [], seeds := [], sources := [] }
      ["TP53", "tp53"] 1 10 true).seed_count = 2 ∧ (2 : Nat) ≠ 1 := by
  exact ⟨by decide, by decide⟩

/-- Witness for C7 (amended): exact duplicates collapse ("A","a","A" gives
seed_count 2), and seeds that strip to nothing give the empty result. -/
theorem C7_seed_dedup_witness :
    (regulon_overlap_v1 (fun _ => 0) (fun q => q) (fun _ => 1)
      { nodes := [], edges := [], seeds := [], sources := [] }
      ["A", "a", "A"] 1 10 true).seed_count = 2 ∧
    regulon_overlap_v1 (fun _ => 0) (fun q => q) (fun _ => 1)
      { nodes := [], edges := [], seeds := [], sources := [] }
      ["", "  "] 3 10 true =
      { seed_count := 0, seeds := [], min_coverage := 3, total_candidates := 0,
        intersection_count := 0, top_interactors := [], intersection_top := [] } := by
  have h1 := (C7_seed_dedup (fun _ => 0) (fun q => q) (fun _ => 1)
    { nodes := [], edges := [], seeds := [], sources := [] }
    ["A", "a", "A"] 1 10 true).2.2.2.2 (by decide)
  have h2 := (C7_seed_dedup (fun _ => 0) (fun q => q) (fun _ => 1)
    { nodes := [], edges := [], seeds := [], sources := [] }
    ["", "  "] 3 10 true).2.2.2.1 (by decide)
  exact ⟨h1.1.trans (by decide), h2⟩

/-- The Python sort key as a value in a lexicographic product of linear
orders (first four components dualized: larger sorts first). -/
def cand_key (c : RegCand) :
    (Nat)ᵒᵈ ×ₗ ((ℚ)ᵒᵈ ×ₗ ((ℚ)ᵒᵈ ×ₗ ((Nat)ᵒᵈ ×ₗ List Char))) :=
  toLex (OrderDual.toDual c.coverage,
    toLex (OrderDual.toDual c.specificity_score,
      toLex (OrderDual.toDual c.confidence_sum,
        toLex (OrderDual.toDual c.db_support, c.node.toList))))

lemma cand_lt_iff (a b : RegCand) : cand_lt a b ↔ cand_key a < cand_key b := by
  unfold cand_lt cand_key
  simp only [Prod.Lex.lt_iff, OrderDual.toDual_lt_toDual, EmbeddingLike.apply_eq_iff_eq]

lemma cand_le_iff (a b : RegCand) : cand_le a b ↔ cand_key a ≤ cand_key b := by
  unfold cand_le
  rw [cand_lt_iff]
  exact not_lt

instance : IsTotal RegCand cand_le :=
  ⟨fun a b => by rw [cand_le_iff, cand_le_iff]; exact le_total _ _⟩

instance : IsTrans RegCand cand_le :=
  ⟨fun a b c h1 h2 => by
    rw [cand_le_iff] at h1 h2 ⊢
    exact le_trans h1 h2⟩

lemma string_toList_inj {a b : String} (h : a.toList = b.toList) : a = b := by
  cases a with
  | mk la =>
    cases b with
    | mk lb =>
      simp only [String.toList] at h
      rw [h]

lemma cand_le_antisymm_node (a b : RegCand)
    (h1 : cand_le a b) (h2 : cand_le b a) : a.node = b.node := by
  rw [cand_le_iff] at h1 h2
  have hk := le_antisymm h1 h2
  unfold cand_key at hk
  simp only [EmbeddingLike.apply_eq_iff_eq, Prod.mk.injEq] at hk
  exact string_toList_inj hk.2.2.2.2

/-- A sorted arrangement of a list is unique when the order is
antisymmetric on the list's members. -/
lemma sorted_perm_eq {α : Type} {le : α → α → Prop} :
    ∀ (l₁ l₂ : List α), List.Perm l₁ l₂ → List.Pairwise le l₁ → List.Pairwise le l₂ →
      (∀ a b, a ∈ l₁ → b ∈ l₁ → le a b → le b a → a = b) → l₁ = l₂ := by
  intro l₁
  induction l₁ with
  | nil => exact fun l₂ hp _ _ _ => hp.nil_eq
  | cons a t ih =>
    intro l₂ hp hs1 hs2 hanti
    cases l₂ with
    | nil =>
      have := hp.length_eq
      simp at this
    | cons b t₂ =>
      have hab : a = b := by
        have hmem_a : a ∈ b :: t₂ := hp.mem_iff.mp (List.mem_cons_self a t)
        rcases List.mem_cons.mp hmem_a with h | h
        · exact h
        · have hmem_b : b ∈ a :: t := hp.mem_iff.mpr (List.mem_cons_self b t₂)
          rcases List.mem_cons.mp hmem_b with h2 | h2
          · exact h2.symm
          · have h3 : le a b := (List.pairwise_cons.mp hs1).1 b h2
            have h4 : le b a := (List.pairwise_cons.mp hs2).1 a h
            exact hanti a b (List.mem_cons_self a t) (List.mem_cons_of_mem a h2) h3 h4
      subst hab
      have hp2 : List.Perm t t₂ := (List.perm_cons a).mp hp
      rw [ih t₂ hp2 (List.pairwise_cons.mp hs1).2 (List.pairwise_cons.mp hs2).2
        (fun x y hx hy => hanti x y (List.mem_cons_of_mem a hx) (List.mem_cons_of_mem a hy))]

lemma upd_item_node (w : Edge → ℚ) (seed : String) (e : Edge) (it : RItem) :
    (upd_item w seed e it).node = it.node := rfl

lemma upd_items_map_node (w : Edge → ℚ) (kind_of : String → String)
    (deg : String → Nat) (seed : String) (e : Edge) (nbr : String) :
    ∀ items : List RItem,
      (upd_items w kind_of deg seed e nbr items).map RItem.node =
        if nbr ∈ items.map RItem.node then items.map RItem.node
        else items.map RItem.node ++ [nbr] := by
  intro items
  induction items with
  | nil => simp [upd_items, upd_item_node]
  | cons it rest ih =>
    by_cases h : it.node = nbr
    · simp [upd_items, h, upd_item_node]
    · have hne : ¬ nbr = it.node := fun hh => h hh.symm
      simp only [upd_items, if_neg h, List.map_cons, ih, List.mem_cons]
      by_cases h2 : nbr ∈ rest.map RItem.node
      · simp [h2, hne]
      · simp [h2, hne]

lemma upd_items_map_node_nodup (w : Edge → ℚ) (kind_of : String → String)
    (deg : String → Nat) (seed : String) (e : Edge) (nbr : String)
    (items : List RItem) (h : (items.map RItem.node).Nodup) :
    ((upd_items w kind_of deg seed e nbr items).map RItem.node).Nodup := by
  rw [upd_items_map_node]
  by_cases h2 : nbr ∈ items.map RItem.node
  · rwa [if_pos h2]
  · rw [if_neg h2]
    simp [List.nodup_append, h, h2]

lemma regulon_items_nodup (w : Edge → ℚ) (netw : Network) (seedsU : List String)
    (ex : Bool) : ((regulon_items w netw seedsU ex).map RItem.node).Nodup := by
  have hstep : ∀ (seed : String) (ps : List (String × Edge)) (items : List RItem),
      (items.map RItem.node).Nodup →
      ((ps.foldl (fun items p =>
          if ex ∧ p.1 ∈ seedsU then items
          else upd_items w (node_kind_of netw.nodes) (deg_of netw.edges) seed p.2 p.1 items)
        items).map RItem.node).Nodup := by
    intro seed ps
    induction ps with
    | nil => exact fun items h => h
    | cons p rest ih =>
      intro items h
      rw [List.foldl_cons]
      by_cases hg : ex ∧ p.1 ∈ seedsU
      · rw [if_pos hg]
        exact ih items h
      · rw [if_neg hg]
        exact ih _ (upd_items_map_node_nodup w _ _ seed p.2 p.1 items h)
  have houter : ∀ (ss : List String) (items : List RItem),
      (items.map RItem.node).Nodup →
      ((ss.foldl (fun items seed =>
          (adj_of netw.edges seed).foldl (fun items p =>
            if ex ∧ p.1 ∈ seedsU then items
            else upd_items w (node_kind_of netw.nodes) (deg_of netw.edges) seed p.2 p.1 items)
          items) items).map RItem.node).Nodup := by
    intro ss
    induction ss with
    | nil => exact fun items h => h
    | cons s rest ih =>
      intro items h
      rw [List.foldl_cons]
      exact ih _ (hstep s (adj_of netw.edges s) items h)
  exact houter seedsU [] (by simp)

lemma survivors_map_node_nodup (w : Edge → ℚ) (roundQ : ℚ → ℚ)
    (log_den : Nat → ℚ) (netw : Network) (seedsU : List String)
    (mc : Nat) (ex : Bool) :
    ((survivors w roundQ log_den netw seedsU mc ex).map RegCand.node).Nodup := by
  have h := regulon_items_nodup w netw seedsU ex
  have hsub : ((regulon_items w netw seedsU ex).filter
      (fun it => ¬ it.hit_seeds.length < mc)).map RItem.node
      |>.Sublist ((regulon_items w netw seedsU ex).map RItem.node) :=
    (List.filter_sublist _).map RItem.node
  have h2 := hsub.nodup h
  have heq : (survivors w roundQ log_den netw seedsU mc ex).map RegCand.node =
      ((regulon_items w netw seedsU ex).filter
        (fun it => ¬ it.hit_seeds.length < mc)).map RItem.node := by
    rw [survivors, List.map_map]
    rfl
  rw [heq]
  exact h2

/-- C2: for a non-empty deduplicated seed list, the returned candidate
list is the first `top` elements of the surviving candidates arranged in
the unique order sorted by coverage desc, specificity desc, confidence-sum
desc, database-diversity desc, node id asc (uniqueness = the order is a
deterministic total order on the candidates, whose node ids are distinct),
and the intersection report consists exactly of the candidates whose
coverage equals the deduplicated seed count (its first `top` elements and
its full count). -/
theorem C2_ranking (w : Edge → ℚ) (roundQ : ℚ → ℚ) (log_den : Nat → ℚ)
    (netw : Network) (seeds : List String) (mc top : Nat) (ex : Bool)
    (hne : dedup_seeds seeds ≠ []) :
    ∃ sortedAll : List RegCand,
      List.Perm sortedAll (survivors w roundQ log_den netw (dedup_seeds seeds) mc ex) ∧
      List.Pairwise cand_le sortedAll ∧
      (∀ l₂ : List RegCand, List.Perm l₂ sortedAll → List.Pairwise cand_le l₂ →
        l₂ = sortedAll) ∧
      (regulon_overlap_v1 w roundQ log_den netw seeds mc top ex).top_interactors
        = sortedAll.take top ∧
      (regulon_overlap_v1 w roundQ log_den netw seeds mc top ex).intersection_top
        = (sortedAll.filter
            (fun x => x.coverage = (dedup_seeds seeds).length)).take top ∧
      (regulon_overlap_v1 w roundQ log_den netw seeds mc top ex).intersection_count
        = (sortedAll.filter
            (fun x => x.coverage = (dedup_seeds seeds).length)).length ∧
      ∀ x, x ∈ sortedAll.filter (fun c => c.coverage = (dedup_seeds seeds).length) ↔
        x ∈ survivors w roundQ log_den netw (dedup_seeds seeds) mc ex ∧
          x.coverage = (dedup_seeds seeds).length := by
  refine ⟨List.insertionSort cand_le
    (survivors w roundQ log_den netw (dedup_seeds seeds) mc ex),
    List.perm_insertionSort _ _, List.sorted_insertionSort _ _, ?_, ?_, ?_, ?_, ?_⟩
  · intro l₂ hp hs
    refine sorted_perm_eq l₂ _ hp hs (List.sorted_insertionSort _ _) ?_
    intro a b ha hb hab hba
    have hmem : ∀ c, c ∈ l₂ →
        c ∈ survivors w roundQ log_den netw (dedup_seeds seeds) mc ex := by
      intro c hc
      exact (List.perm_insertionSort cand_le _).mem_iff.mp (hp.mem_iff.mp hc)
    exact List.inj_on_of_nodup_map
      (survivors_map_node_nodup w roundQ log_den netw (dedup_seeds seeds) mc ex)
      (hmem a ha) (hmem b hb) (cand_le_antisymm_node a b hab hba)
  · rw [regulon_overlap_v1, if_neg hne]
  · rw [regulon_overlap_v1, if_neg hne]
  · rw [regulon_overlap_v1, if_neg hne]
  · intro x
    simp only [List.mem_filter, decide_eq_true_eq,
      (List.perm_insertionSort cand_le _).mem_iff]

/-- Witness for C2 at a concrete network and non-empty seed list, with
concrete weight, rounding and denominator functions. -/
theorem C2_ranking_witness :
    ∃ sortedAll : List RegCand,
      List.Perm sortedAll (survivors (fun e => (e.score.getD 0)) (fun q => q)
        (fun d => (d : ℚ) + 1)
        { nodes :=
            [{ id := "TP53", label := "TP53", kind := "protein", sources := ["STRING"] },
             { id := "MDM2", label := "MDM2", kind := "protein", sources := ["STRING"] }]
          edges :=
            [{ source := "TP53", target := "MDM2", kind := "ppi", source_db := "STRING",
               score := some 900 }]
          seeds := ["TP53"]
          sources := ["string_ppi"] }
        (dedup_seeds ["TP53"]) 1 true) ∧
      List.Pairwise cand_le sortedAll ∧
      (∀ l₂ : List RegCand, List.Perm l₂ sortedAll → List.Pairwise cand_le l₂ →
        l₂ = sortedAll) ∧
      (regulon_overlap_v1 (fun e => (e.score.getD 0)) (fun q => q)
        (fun d => (d : ℚ) + 1)
        { nodes :=
            [{ id := "TP53", label := "TP53", kind := "protein", sources := ["STRING"] },
             { id := "MDM2", label := "MDM2", kind := "protein", sources := ["STRING"] }]
          edges :=
            [{ source := "TP53", target := "MDM2", kind := "ppi", source_db := "STRING",
               score := some 900 }]
          seeds := ["TP53"]
          sources := ["string_ppi"] }
        ["TP53"] 1 50 true).top_interactors = sortedAll.take 50 ∧
      (regulon_overlap_v1 (fun e => (e.score.getD 0)) (fun q => q)
        (fun d => (d : ℚ) + 1)
        { nodes :=
            [{ id := "TP53", label := "TP53", kind := "protein", sources := ["STRING"] },
             { id := "MDM2", label := "MDM2", kind := "protein", sources := ["STRING"] }]
          edges :=
            [{ source := "TP53", target := "MDM2", kind := "ppi", source_db := "STRING",
               score := some 900 }]
          seeds := ["TP53"]
          sources := ["string_ppi"] }
        ["TP53"] 1 50 true).intersection_top
        = (sortedAll.filter
            (fun x => x.coverage = (dedup_seeds ["TP53"]).length)).take 50 ∧
      (regulon_overlap_v1 (fun e => (e.score.getD 0)) (fun q => q)
        (fun d => (d : ℚ) + 1)
        { nodes :=
            [{ id := "TP53", label := "TP53", kind := "protein", sources := ["STRING"] },
             { id := "MDM2", label := "MDM2", kind := "protein", sources := ["STRING"] }]
          edges :=
            [{ source := "TP53", target := "MDM2", kind := "ppi", source_db := "STRING",
               score := some 900 }]
          seeds := ["TP53"]
          sources := ["string_ppi"] }
        ["TP53"] 1 50 true).intersection_count
        = (sortedAll.filter
            (fun x => x.coverage = (dedup_seeds ["TP53"]).length)).length ∧
      ∀ x, x ∈ sortedAll.filter
          (fun c => c.coverage = (dedup_seeds ["TP53"]).length) ↔
        x ∈ survivors (fun e => (e.score.getD 0)) (fun q => q)
          (fun d => (d : ℚ) + 1)
          { nodes :=
              [{ id := "TP53", label := "TP53", kind := "protein", sources := ["STRING"] },
               { id := "MDM2", label := "MDM2", kind := "protein", sources := ["STRING"] }]
            edges :=
              [{ source := "TP53", target := "MDM2", kind := "ppi", source_db := "STRING",
                 score := some 900 }]
            seeds := ["TP53"]
            sources := ["string_ppi"] }
          (dedup_seeds ["TP53"]) 1 true ∧
          x.coverage = (dedup_seeds ["TP53"]).length :=
  C2_ranking (fun e => (e.score.getD 0)) (fun q => q) (fun d => (d : ℚ) + 1)
    { nodes :=
        [{ id := "TP53", label := "TP53", kind := "protein", sources := ["STRING"] },
         { id := "MDM2", label := "MDM2", kind := "protein", sources := ["STRING"] }]
      edges :=
        [{ source := "TP53", target := "MDM2", kind := "ppi", source_db := "STRING",
           score := some 900 }]
      seeds := ["TP53"]
      sources := ["string_ppi"] }
    ["TP53"] 1 50 true (by decide)

/-- A decoded STRING partner record: the names extracted from
`preferredName_A/B` (falling back to `stringId_A/B`, else empty) and the
decoded optional score. -/
structure StringItem where
  nameA : String
  nameB : String
  score : Option ℚ
deriving DecidableEq, Repr

/-- A decoded ENCORI RBP-target record (`RBP`, `geneName`; a falsy field
is modelled as the empty string). -/
structure RbpItem where
  rbp : String
  geneName : String
deriving DecidableEq, Repr

/-- A decoded ENCORI RNA-RNA record (`geneName`, `pairGeneName`). -/
structure RnaItem where
  geneName : String
  pairGeneName : String
deriving DecidableEq, Repr

/-- The two failure kinds of `build_network`: HTTP 400 (no valid evidence
source requested) and HTTP 502 (an upstream adapter failed). -/
inductive BuildError where
  | config (detail : String)
  | upstream (detail : String)
deriving DecidableEq, Repr

/-- The STRING fold of `build_network`: skip records with a falsy name,
add both protein nodes and merge a "ppi"/"STRING" edge carrying the pass
depth in its metadata. -/
def fold_string_items (depth_meta : Meta)
    (st : List Node × List ((String × String × String × String) × Edge))
    (items : List StringItem) :
    List Node × List ((String × String × String × String) × Edge) :=
  items.foldl (fun st it =>
    if it.nameA ≠ "" ∧ it.nameB ≠ "" then
      (add_node (add_node st.1 it.nameA it.nameA "protein" "STRING")
        it.nameB it.nameB "protein" "STRING",
       merge_edge st.2
        { source := it.nameA, target := it.nameB, kind := "ppi",
          source_db := "STRING", score := it.score, support := 1, meta := depth_meta })
    else st) st

/-- The ENCORI RBP-target fold for one seed: strip the RBP name and the
target (falling back to the seed when the record's gene name is falsy),
skip falsy pairs, add protein + rna nodes and merge an
"rbp_target"/"ENCORI" edge carrying the record as metadata. -/
def fold_rbp_items (seed : String)
    (st : List Node × List ((String × String × String × String) × Edge))
    (items : List RbpItem) :
    List Node × List ((String × String × String × String) × Edge) :=
  items.foldl (fun st it =>
    let rbp := str_trim it.rbp
    let tgt := str_trim (if it.geneName = "" then seed else it.geneName)
    if rbp ≠ "" ∧ tgt ≠ "" then
      (add_node (add_node st.1 rbp rbp "protein" "ENCORI") tgt tgt "rna" "ENCORI",
       merge_edge st.2
        { source := rbp, target := tgt, kind := "rbp_target", source_db := "ENCORI",
          score := none, support := 1,
          meta := some [("RBP", it.rbp), ("geneName", it.geneName)] })
    else st) st

/-- The ENCORI RNA-RNA fold for one seed's records. -/
def fold_rna_items
    (st : List Node × List ((String × String × String × String) × Edge))
    (items : List RnaItem) :
    List Node × List ((String × String × String × String) × Edge) :=
  items.foldl (fun st it =>
    let a := str_trim it.geneName
    let b := str_trim it.pairGeneName
    if a ≠ "" ∧ b ≠ "" then
      (add_node (add_node st.1 a a "rna" "ENCORI") b b "rna" "ENCORI",
       merge_edge st.2
        { source := a, target := b, kind := "rna_rna", source_db := "ENCORI",
          score := none, support := 1,
          meta := some [("geneName", it.geneName), ("pairGeneName", it.pairGeneName)] })
    else st) st

/-- The per-seed ENCORI RBP loop: one adapter call per seed (counted),
aborting the build on the first failure. -/
def fetch_fold_rbp (fetch : String → Except String (List RbpItem)) :
    List String → (List Node × List ((String × String × String × String) × Edge)) →
    Except String (List Node × List ((String × String × String × String) × Edge)) × Nat
  | [], st => (.ok st, 0)
  | seed :: rest, st =>
    match fetch seed with
    | .error msg => (.error msg, 1)
    | .ok items =>
      let r := fetch_fold_rbp fetch rest (fold_rbp_items seed st items)
      (r.1, r.2 + 1)

/-- The per-seed ENCORI RNA-RNA loop. -/
def fetch_fold_rna (fetch : String → Except String (List RnaItem)) :
    List String → (List Node × List ((String × String × String × String) × Edge)) →
    Except String (List Node × List ((String × String × String × String) × Edge)) × Nat
  | [], st => (.ok st, 0)
  | seed :: rest, st =>
    match fetch seed with
    | .error msg => (.error msg, 1)
    | .ok items =>
      let r := fetch_fold_rna fetch rest (fold_rna_items st items)
      (r.1, r.2 + 1)

/-- Embeds `build_network` with the network adapters abstracted as oracle
functions returning decoded records (or an upstream failure); the second
component counts adapter consultations.  An empty (normalized) source list
fails with the configuration error immediately, with zero consultations.
STRING runs one batched call over all seeds (plus one expansion call from
the first 250 discovered STRING protein names when `string_depth ≥ 2`);
each ENCORI source runs one call per seed; any adapter failure aborts the
whole build.  After all folds, the network is assembled and pruned exactly
when the budget is enabled (nonzero) and exceeded. -/
def build_network (seeds : List String) (sources : List String)
    (string_depth : Nat) (max_nodes : Nat)
    (fetch_string1 fetch_string2 : List String → Except String (List StringItem))
    (fetch_rbp : String → Except String (List RbpItem))
    (fetch_rna : String → Except String (List RnaItem)) :
    Except BuildError Network × Nat :=
  if sources = [] then
    (.error (.config "No valid sources"), 0)
  else
    let stage1 : Except BuildError
        (List Node × List ((String × String × String × String) × Edge)) × Nat :=
      if "string_ppi" ∈ sources then
        match fetch_string1 seeds with
        | .error msg => (.error (.upstream ("STRING error: " ++ msg)), 1)
        | .ok items1 =>
          let st := fold_string_items (some [("depth", "1")]) ([], []) items1
          if 2 ≤ string_depth then
            let string_names := ((st.1.filter
              (fun n => n.kind = "protein" ∧ "STRING" ∈ n.sources)).map Node.id).take 250
            match fetch_string2 string_names with
            | .error msg => (.error (.upstream ("STRING depth=2 error: " ++ msg)), 2)
            | .ok items2 => (.ok (fold_string_items (some [("depth", "2")]) st items2), 2)
          else (.ok st, 1)
      else (.ok ([], []), 0)
    match stage1 with
    | (.error e, c1) => (.error e, c1)
    | (.ok st1, c1) =>
      let stage2 : Except BuildError
          (List Node × List ((String × String × String × String) × Edge)) × Nat :=
        if "encori_rbp_by_target" ∈ sources then
          let r := fetch_fold_rbp fetch_rbp seeds st1
          match r.1 with
          | .error msg => (.error (.upstream ("ENCORI RBPTarget error: " ++ msg)), r.2)
          | .ok st => (.ok st, r.2)
        else (.ok st1, 0)
      match stage2 with
      | (.error e, c2) => (.error e, c1 + c2)
      | (.ok st2, c2) =>
        let stage3 : Except BuildError
            (List Node × List ((String × String × String × String) × Edge)) × Nat :=
          if "encori_rna_rna" ∈ sources then
            let r := fetch_fold_rna fetch_rna seeds st2
            match r.1 with
            | .error msg => (.error (.upstream ("ENCORI RNARNA error: " ++ msg)), r.2)
            | .ok st => (.ok st, r.2)
          else (.ok st2, 0)
        match stage3 with
        | (.error e, c3) => (.error e, c1 + c2 + c3)
        | (.ok st3, c3) =>
          let node_list := st3.1
          let edge_list := st3.2.map Prod.snd
          let net : Network :=
            { nodes := node_list
              edges := edge_list
              seeds := seeds
              sources := sources
              pruned := false
              pruned_max_nodes := none
              count_nodes := node_list.length
              count_edges := edge_list.length }
          let net := if max_nodes ≠ 0 ∧ max_nodes < node_list.length
            then prune_network net seeds max_nodes else net
          (.ok net, c1 + c2 + c3)

/-- C10: when the requested source list normalizes to nothing (empty, or
only unrecognized identifiers), the build fails with the configuration
error and performs zero adapter consultations, for every possible adapter
behavior — the bad source list is never silently ignored. -/
theorem C10_config_error (src_csv : String) (seeds : List String)
    (string_depth max_nodes : Nat)
    (f1 f2 : List String → Except String (List StringItem))
    (fr : String → Except String (List RbpItem))
    (fn : String → Except String (List RnaItem))
    (h : normalize_sources src_csv = []) :
    build_network seeds (normalize_sources src_csv) string_depth max_nodes f1 f2 fr fn
      = (.error (.config "No valid sources"), 0) := by
  rw [h, build_network, if_pos rfl]

/-- Witness for C10: an all-unrecognized request and the empty request
both normalize to nothing and fail fast with zero consultations. -/
theorem C10_config_error_witness :
    normalize_sources "bogus, unknown," = [] ∧
    normalize_sources "" = [] ∧
    build_network ["TP53"] (normalize_sources "bogus, unknown,") 1 2000
        (fun _ => .ok []) (fun _ => .ok []) (fun _ => .ok []) (fun _ => .ok [])
      = (.error (.config "No valid sources"), 0) :=
  ⟨by decide, by decide,
    C10_config_error "bogus, unknown," ["TP53"] 1 2000
      (fun _ => .ok []) (fun _ => .ok []) (fun _ => .ok []) (fun _ => .ok [])
      (by decide)⟩

end RegulonPro
